import Mathlib

/-!
Shallow embedding of the nbviewer GitLab provider
(`nbviewer/providers/gitlab/client.py` and
`nbviewer/providers/gitlab/handlers.py`).

Python strings are modelled as `List Char`, Python dicts (query-parameter
mappings) as association lists with Python-dict `update`/assignment
semantics (replace the value in place when the key is present, append the
pair otherwise).  Python exceptions are modelled by explicit error values.
The file holds the definitions first and all theorems afterwards.
-/

/-- A query-parameter mapping: insertion-ordered key/value pairs, as a
Python dict of strings. -/
abbrev Dict := List (List Char × List Char)

/-- First value stored under key `k`, scanning in order (Python `d[k]`
for dicts built without duplicate keys). -/
def lookupKey (d : Dict) (k : List Char) : Option (List Char) :=
  match d with
  | [] => none
  | (k', v) :: t => if k' = k then some v else lookupKey t k

/-- Whether the mapping carries key `k` (Python `k in d`). -/
def hasKey (d : Dict) (k : List Char) : Bool :=
  d.any (fun kv => kv.1 = k)

/-- Python `d[k] = v`: replace the value of an existing key in place,
otherwise append the new pair at the end (dicts preserve insertion
order). -/
def setKey (d : Dict) (k v : List Char) : Dict :=
  if hasKey d k then d.map (fun kv => if kv.1 = k then (k, v) else kv)
  else d ++ [(k, v)]

/-- Python `d.update(upd)`: assign every pair of `upd` into `d` in
order. -/
def dictUpdate (d upd : Dict) : Dict :=
  upd.foldl (fun acc kv => setKey acc kv.1 kv.2) d

/-- One item of a GitLab repository-tree listing as consumed by
`AsyncGitLabClient._extract_tree_entry`: only the `path` field is ever
inspected; the remaining JSON fields (id, name, type, mode) are carried
opaquely in `payload`. -/
structure TreeEntry where
  path : List Char
  payload : List Char
deriving DecidableEq

/-- A raised Python exception, as far as the embedded code can tell them
apart: a `tornado.httpclient.HTTPError(code, msg)` or a built-in
`TypeError`. -/
inductive PyError where
  | httpError (code : Nat) (msg : List Char)
  | typeError (msg : List Char)
deriving DecidableEq

/-- Message of the `TypeError` Python raises for `data['tree']` when
`data` is a list. -/
def listIndexMsg : List Char :=
  "list indices must be integers or slices, not str".toList

/-- `AsyncGitLabClient._extract_tree_entry(path, tree_response)` after the
response has been parsed into the listing `data`: scan `data` in order and
return the first entry whose `path` field equals the target exactly.
When no entry matches, the source builds
`HTTPError(404, "%s not found among %i files" % (path, len(data['tree'])))`;
`data` is the parsed JSON *list*, so evaluating `data['tree']` raises
`TypeError` before the `HTTPError` is ever constructed. -/
def extract_tree_entry (path : List Char) : List TreeEntry → Except PyError TreeEntry
  | [] => Except.error (PyError.typeError listIndexMsg)
  | e :: rest =>
      if e.path = path then Except.ok e else extract_tree_entry path rest

/-- UTF-8 encoding of one character, as a list of byte values. -/
def utf8Bytes (c : Char) : List Nat :=
  let n := c.toNat
  if n < 128 then [n]
  else if n < 2048 then [192 + n / 64, 128 + n % 64]
  else if n < 65536 then [224 + n / 4096, 128 + (n / 64) % 64, 128 + n % 64]
  else [240 + n / 262144, 128 + (n / 4096) % 64, 128 + (n / 64) % 64, 128 + n % 64]

/-- Uppercase hexadecimal digit for a value below 16. -/
def hexDigitChar (n : Nat) : Char :=
  if n < 10 then Char.ofNat (48 + n) else Char.ofNat (55 + n)

/-- Bytes `urllib.parse.quote` leaves unescaped with its default
`safe='/'`: ASCII letters, digits, and the characters underscore, dot,
hyphen, tilde and slash. -/
def isSafeByte (b : Nat) : Bool :=
  (65 ≤ b && b ≤ 90) || (97 ≤ b && b ≤ 122) || (48 ≤ b && b ≤ 57) ||
    b == 95 || b == 46 || b == 45 || b == 126 || b == 47

/-- Percent-encode a byte sequence, keeping safe bytes verbatim. -/
def quoteBytes : List Nat → List Char
  | [] => []
  | b :: bs =>
      (if isSafeByte b then [Char.ofNat b]
       else ['%', hexDigitChar (b / 16), hexDigitChar (b % 16)]) ++ quoteBytes bs

/-- Modelled from the spec: the handlers pass navigation URLs through the
repository's `utils.quote` helper, which is not under `src/`; it wraps
`urllib.parse.quote` (UTF-8 percent-encoding with `/` kept safe), which
is what this definition implements. -/
def quote (s : List Char) : List Char :=
  quoteBytes (s.foldr (fun c acc => utf8Bytes c ++ acc) [])

/-- One item of the parsed directory-listing JSON as consumed by
`GitLabTreeHandler.get`: display name, repository path, the `type` tag,
and the optional upstream display URL (`None` for submodules). -/
structure TreeFile where
  name : List Char
  path : List Char
  ftype : List Char
  html_url : Option (List Char)
deriving DecidableEq

/-- One entry produced for the tree template: display name, navigation
URL, and icon class. -/
structure DisplayEntry where
  name : List Char
  url : List Char
  cls : List Char
deriving DecidableEq

/-- The `file['type'] == 'dir'` test of `GitLabTreeHandler.get`. -/
def fileIsDir (f : TreeFile) : Bool :=
  f.ftype == "dir".toList

/-- The `file['name'].endswith('.ipynb')` test of
`GitLabTreeHandler.get`. -/
def fileIsNotebook (f : TreeFile) : Bool :=
  (".ipynb".toList).isSuffixOf f.name

/-- Python truthiness of `file['html_url']`: false for `None` and for the
empty string. -/
def htmlUrlTruthy (f : TreeFile) : Bool :=
  match f.html_url with
  | some u => !u.isEmpty
  | none => false

/-- The display entry `e` built for one `file` of the listing in
`GitLabTreeHandler.get` (lines 150-175): directories link to the quoted
`/github/<user>/<repo>/tree/<ref>/<path>` route with class
`fa-folder-open`; notebooks to the quoted
`/github/<user>/<repo>/blob/<ref>/<path>` route with class `fa-book`;
other files carry their upstream `html_url` with class `fa-share`, or an
empty URL with class `fa-folder-close` when `html_url` is falsy
(submodules). -/
def mkEntry (user repo ref : List Char) (f : TreeFile) : DisplayEntry :=
  if fileIsDir f then
    { name := f.name
      url := quote ("/github/".toList ++ user ++ '/' :: repo ++ "/tree/".toList
        ++ ref ++ '/' :: f.path)
      cls := "fa-folder-open".toList }
  else if fileIsNotebook f then
    { name := f.name
      url := quote ("/github/".toList ++ user ++ '/' :: repo ++ "/blob/".toList
        ++ ref ++ '/' :: f.path)
      cls := "fa-book".toList }
  else if htmlUrlTruthy f then
    { name := f.name, url := f.html_url.getD [], cls := "fa-share".toList }
  else
    { name := f.name, url := [], cls := "fa-folder-close".toList }

/-- One iteration of the classification loop of `GitLabTreeHandler.get`:
append the entry built for `f` to the `dirs`, `ipynbs` or `others`
accumulator according to its category. -/
def classifyStep (user repo ref : List Char)
    (acc : List DisplayEntry × List DisplayEntry × List DisplayEntry)
    (f : TreeFile) :
    List DisplayEntry × List DisplayEntry × List DisplayEntry :=
  if fileIsDir f then (acc.1 ++ [mkEntry user repo ref f], acc.2.1, acc.2.2)
  else if fileIsNotebook f then (acc.1, acc.2.1 ++ [mkEntry user repo ref f], acc.2.2)
  else (acc.1, acc.2.1, acc.2.2 ++ [mkEntry user repo ref f])

/-- The classification loop of `GitLabTreeHandler.get`: fold over the
listing in order, starting from three empty groups. -/
def classify (user repo ref : List Char) (files : List TreeFile) :
    List DisplayEntry × List DisplayEntry × List DisplayEntry :=
  files.foldl (classifyStep user repo ref) ([], [], [])

/-- `entries` as assembled by `GitLabTreeHandler.get`:
`entries.extend(dirs); entries.extend(ipynbs); entries.extend(others)`. -/
def treeEntries (user repo ref : List Char) (files : List TreeFile) :
    List DisplayEntry :=
  (classify user repo ref files).1 ++ (classify user repo ref files).2.1
    ++ (classify user repo ref files).2.2

/-- The parsed JSON contents fetched by `GitLabTreeHandler.get`: either a
directory listing (a JSON array) or any non-list value (the path
addresses a single file). -/
inductive JsonContents where
  | listing (files : List TreeFile)
  | nonList
deriving DecidableEq

/-- The observable outcome of the tree handler: an HTTP redirect to a
URL, or a rendered tree view over display entries. -/
inductive TreeOutcome where
  | redirect (url : List Char)
  | render (entries : List DisplayEntry)
deriving DecidableEq

/-- Python `path.rstrip('/')`: drop every trailing slash. -/
def rstripSlashes (s : List Char) : List Char :=
  (s.reverse.dropWhile (fun c => c == '/')).reverse

/-- `GitLabTreeHandler.get` reduced to its control flow: redirect to the
slash-terminated URI when the request URI lacks a trailing slash; strip
trailing slashes from the path; redirect to
`{format}/github/<user>/<repo>/blob/<ref>/<path>` when the fetched
contents are not a list; otherwise render the classified entries.  (The
branch/tag fetches and breadcrumbs feed only the rendered template and
are omitted from the outcome.) -/
def treeHandlerGet (formatPfx uri user repo ref path : List Char)
    (contents : JsonContents) : TreeOutcome :=
  if (['/'].isSuffixOf uri : Bool) then
    match contents with
    | JsonContents.nonList =>
        TreeOutcome.redirect (formatPfx ++ "/github/".toList ++ user
          ++ '/' :: repo ++ "/blob/".toList ++ ref
          ++ '/' :: rstripSlashes path)
    | JsonContents.listing files =>
        TreeOutcome.render (treeEntries user repo ref files)
  else TreeOutcome.redirect (uri ++ ['/'])

/-- Literal-prefix matcher: `some rest` when `s = p ++ rest`.  The
rewrite pattern of `uri_rewrites` embeds the configured base URL with
its dots escaped (`gitlab_url.replace('.', r'\.')`), so the base matches
itself literally. -/
def dropPrefixL (p s : List Char) : Option (List Char) :=
  match p, s with
  | [], s => some s
  | _ :: _, [] => none
  | a :: p', b :: s' => if a = b then dropPrefixL p' s' else none

/-- Regex fragment `([^\/]+)/`: one nonempty run of characters other
than `/`, terminated by a literal `/`.  The run cannot cross a slash, so
the match is exactly the text up to the first slash. -/
def splitSeg (s : List Char) : Option (List Char × List Char) :=
  let seg := s.takeWhile (fun c => !(c == '/'))
  match s.dropWhile (fun c => !(c == '/')) with
  | '/' :: t => if seg.isEmpty then none else some (seg, t)
  | _ => none

/-- Regex fragment `(blob|tree)/`: the alternation tries `blob` first. -/
def matchKind (s : List Char) : Option (List Char × List Char) :=
  match dropPrefixL ("blob/".toList) s with
  | some r => some ("blob".toList, r)
  | none =>
      match dropPrefixL ("tree/".toList) s with
      | some r => some ("tree".toList, r)
      | none => none

/-- Regex fragment `(.*)$` with Python's default flags: `.` matches any
character except a newline, and `$` matches at the end of the input or
just before one trailing newline.  So the group captures the whole
remainder when it has no newline, captures all but a single trailing
newline, and fails otherwise. -/
def matchTail (s : List Char) : Option (List Char) :=
  if '\n' ∈ s then
    if '\n' ∈ s.dropLast then none
    else if s.getLast? = some '\n' then some s.dropLast else none
  else some s

/-- The single rewrite rule installed by `uri_rewrites` in
`handlers.py`, applied to a URI the way the surrounding
`transform_ipynb_uri` collaborator applies it (`re.match` against
`^<base>/([^\/]+)/([^\/]+)/(blob|tree)/(.*)$`, then substitution into
`/gitlab/{0}/{1}/{2}/{3}`): `some` of the internal URL on a match,
`none` when the pattern does not match (the URI is then left
untransformed). -/
def uriRewrite (base uri : List Char) : Option (List Char) :=
  match dropPrefixL (base ++ ['/']) uri with
  | none => none
  | some s1 =>
      match splitSeg s1 with
      | none => none
      | some (user, s2) =>
          match splitSeg s2 with
          | none => none
          | some (repo, s3) =>
              match matchKind s3 with
              | none => none
              | some (kind, s4) =>
                  match matchTail s4 with
                  | none => none
                  | some rest =>
                      some ("/gitlab/".toList ++ user ++ '/' :: repo
                        ++ '/' :: kind ++ '/' :: rest)

/-- The `AsyncGitLabClient` state fixed at construction time: the API
base URL (`url_path_join(GITLAB_URL, quote("/api/v3"))`) and the `auth`
dict built by `authenticate()`. -/
structure GLClient where
  gitlab_api_url : List Char
  auth : Dict
deriving DecidableEq

/-- The query-parameter key carrying the credential. -/
def privateTokenKey : List Char := "private_token".toList

/-- `AsyncGitLabClient.authenticate()`:
`{'private_token': token}` filtered to drop falsy (empty) values. -/
def mkAuth (token : List Char) : Dict :=
  ([(privateTokenKey, token)]).filter (fun kv => !kv.2.isEmpty)

/-- The observable fate of one `AsyncGitLabClient.fetch` call: the
request goes out to `url_concat(url, params)` — modelled as the pair of
`url` and the final parameter mapping — or a `ValueError` is raised
before any network send. -/
inductive FetchResult where
  | sent (url : List Char) (params : Dict)
  | valueError (msg : List Char)
deriving DecidableEq

/-- Message of the `ValueError` raised by `fetch` for a URL outside the
API base. -/
def fetchErrMsg : List Char :=
  "Only fetch GitHub urls with GitHub auth".toList

/-- The query parameters `fetch` sends: `params.update(self.auth)` runs
exactly when `self.auth` is truthy (nonempty). -/
def fetchParams (c : GLClient) (params : Dict) : Dict :=
  if c.auth.isEmpty then params else dictUpdate params c.auth

/-- `AsyncGitLabClient.fetch(url, params=params)`: a URL that does not
start with the configured API base raises `ValueError` before anything
else; otherwise the credential is merged into the query parameters and
the request is sent. -/
def fetch (c : GLClient) (url : List Char) (params : Dict) : FetchResult :=
  if c.gitlab_api_url.isPrefixOf url then
    FetchResult.sent url (fetchParams c params)
  else FetchResult.valueError fetchErrMsg

/-- A concrete client configuration for witnesses: API base
`https://gitlab.example/api/v3` with a configured token. -/
def exClient : GLClient :=
  ⟨"https://gitlab.example/api/v3".toList, mkAuth ("sekrit".toList)⟩

/-- The `sudo` query-parameter key. -/
def sudoKey : List Char := "sudo".toList

/-- `AsyncGitLabClient.get_projects(user, params=...)` before handing
off to `fetch`: `params['sudo'] = user` on the caller-supplied
parameters. -/
def get_projects_params (user : List Char) (callerParams : Dict) : Dict :=
  setKey callerParams sudoKey user

/-- The final query parameters of the outgoing project-listing request:
`get_projects` sets `sudo`, then `fetch` merges the credential. -/
def get_projects_sent_params (c : GLClient) (user : List Char)
    (callerParams : Dict) : Dict :=
  fetchParams c (get_projects_params user callerParams)

/-- Message of the `TypeError` Python raises when `get_tree` is invoked
without its required positional `path` argument. -/
def missingPathMsg : List Char :=
  "get_tree() missing 1 required positional argument: path".toList

/-- Outcome of invoking `AsyncGitLabClient.get_tree_entry`: either a
tree-listing request goes out (its query parameters, plus leftover
keyword arguments that `fetch` would pass on to the HTTP transport), or
a Python error is raised before any request is issued. -/
inductive CallOutcome where
  | treeRequest (params : Dict) (extraKwargs : Dict)
  | pyError (msg : List Char)
deriving DecidableEq

/-- The params dict built inside `AsyncGitLabClient.get_tree`:
`params['path'] = path` when `path` is truthy and
`params['ref_name'] = ref` when `ref` is truthy, starting from the empty
dict (its callers pass no `params` keyword). -/
def get_tree_params (path : List Char) (ref : Option (List Char)) : Dict :=
  let p1 : Dict := if path ≠ [] then setKey [] ("path".toList) path else []
  match ref with
  | some r => if r ≠ [] then setKey p1 ("ref_name".toList) r else p1
  | none => p1

/-- The keyword arguments `get_tree_entry` builds for its `get_tree`
call: `{'recursive': True}` exactly when the target path contains a
separator, empty otherwise. -/
def treeEntryKwargs (path : List Char) : Dict :=
  if '/' ∈ path then [("recursive".toList, "True".toList)] else []

/-- `AsyncGitLabClient.get_tree_entry(user, repo, path, ref)` as called
with no extra keyword arguments (its only call shape in the repository):
it builds `kwargs` and evaluates
`self.get_tree(user, repo, ref=ref, callback=cb, **kwargs)`.  `get_tree`
declares `path` as a required positional parameter, the call supplies
only `user` and `repo` positionally, so `path` could only be bound from
a `path` key of `kwargs` — which never carries one — and Python raises a
`TypeError` before any tree request is issued. -/
def get_tree_entry_call (user repo path ref : List Char) : CallOutcome :=
  let kwargs := treeEntryKwargs path
  match lookupKey kwargs ("path".toList) with
  | some p =>
      CallOutcome.treeRequest (get_tree_params p (some ref))
        (kwargs.filter (fun kv => !(kv.1 == "path".toList)))
  | none => CallOutcome.pyError missingPathMsg

theorem lookupKey_map_self (d : Dict) (k v : List Char) (h : hasKey d k = true) :
    lookupKey (d.map (fun kv => if kv.1 = k then (k, v) else kv)) k = some v := by
  induction d with
  | nil => simp [hasKey] at h
  | cons kv t ih =>
      by_cases hk : kv.1 = k
      · simp only [List.map_cons]
        rw [if_pos hk]
        simp [lookupKey]
      · have ht : hasKey t k = true := by
          unfold hasKey at h
          rw [List.any_cons] at h
          rcases (Bool.or_eq_true _ _).mp h with h1 | h2
          · exact absurd (of_decide_eq_true h1) hk
          · exact h2
        simp only [List.map_cons]
        rw [if_neg hk]
        simp only [lookupKey]
        rw [if_neg hk]
        exact ih ht

theorem lookupKey_append_nokey (d : Dict) (k v : List Char) (h : hasKey d k = false) :
    lookupKey (d ++ [(k, v)]) k = some v := by
  induction d with
  | nil => simp [lookupKey]
  | cons kv t ih =>
      have hsplit : decide (kv.1 = k) = false
          ∧ List.any t (fun kv => kv.1 = k) = false := by
        unfold hasKey at h
        rw [List.any_cons] at h
        exact Bool.or_eq_false_iff.mp h
      have hk : kv.1 ≠ k := of_decide_eq_false hsplit.1
      have ht : hasKey t k = false := hsplit.2
      simp only [List.cons_append, lookupKey]
      rw [if_neg hk]
      exact ih ht

theorem lookupKey_setKey_self (d : Dict) (k v : List Char) :
    lookupKey (setKey d k v) k = some v := by
  unfold setKey
  cases h : hasKey d k with
  | true => simpa [h] using lookupKey_map_self d k v h
  | false => simpa [h] using lookupKey_append_nokey d k v h

theorem lookupKey_map_other (d : Dict) (k k2 v2 : List Char) (hne : k2 ≠ k) :
    lookupKey (d.map (fun kv => if kv.1 = k2 then (k2, v2) else kv)) k
      = lookupKey d k := by
  induction d with
  | nil => rfl
  | cons kv t ih =>
      by_cases h : kv.1 = k2
      · simp only [List.map_cons]
        rw [if_pos h]
        simp only [lookupKey]
        have hkk : kv.1 ≠ k := by rw [h]; exact hne
        rw [if_neg hne, if_neg hkk, ih]
      · simp only [List.map_cons]
        rw [if_neg h]
        simp only [lookupKey]
        by_cases hk : kv.1 = k
        · rw [if_pos hk, if_pos hk]
        · rw [if_neg hk, if_neg hk]
          exact ih

theorem lookupKey_append_other (d : Dict) (k k2 v2 : List Char) (hne : k2 ≠ k) :
    lookupKey (d ++ [(k2, v2)]) k = lookupKey d k := by
  induction d with
  | nil => simp [lookupKey, hne]
  | cons kv t ih =>
      simp only [List.cons_append, lookupKey]
      by_cases hk : kv.1 = k
      · rw [if_pos hk, if_pos hk]
      · rw [if_neg hk, if_neg hk]
        exact ih

theorem lookupKey_setKey_other (d : Dict) (k k2 v2 : List Char) (hne : k2 ≠ k) :
    lookupKey (setKey d k2 v2) k = lookupKey d k := by
  unfold setKey
  cases h : hasKey d k2 with
  | true => simpa [h] using lookupKey_map_other d k k2 v2 hne
  | false => simpa [h] using lookupKey_append_other d k k2 v2 hne

theorem mkAuth_eq_nil : mkAuth [] = [] := by rfl

theorem mkAuth_eq (token : List Char) (h : token ≠ []) :
    mkAuth token = [(privateTokenKey, token)] := by
  cases token with
  | nil => exact absurd rfl h
  | cons a t => rfl

/-- C2: for every target path and tree listing, path resolution returns
entry `e` exactly when `e` is the first entry in listing order whose
`path` field equals the target, compared by exact equality (no
normalization, no case-folding).  `extract_tree_entry` is a pure
function, so repeated lookups of the same path over a fixed listing
always return the same entry. -/
theorem extract_tree_entry_first_match (path : List Char) (data : List TreeEntry)
    (e : TreeEntry) :
    extract_tree_entry path data = Except.ok e ↔
      data.find? (fun x => x.path == path) = some e := by
  induction data with
  | nil => simp [extract_tree_entry]
  | cons hd tl ih =>
      by_cases h : hd.path = path
      · simp [extract_tree_entry, List.find?, h]
      · have hb : (hd.path == path) = false := by
          simpa using h
        simp [extract_tree_entry, List.find?, h, hb, ih]

/-- C2 witness: resolving path "b" in a concrete two-entry listing
returns the matching entry, via `extract_tree_entry_first_match`. -/
theorem extract_tree_entry_first_match_witness :
    extract_tree_entry ("b".toList)
        [⟨"a".toList, "e1".toList⟩, ⟨"b".toList, "e2".toList⟩] =
      Except.ok ⟨"b".toList, "e2".toList⟩ := by
  exact (extract_tree_entry_first_match ("b".toList)
    [⟨"a".toList, "e1".toList⟩, ⟨"b".toList, "e2".toList⟩]
    ⟨"b".toList, "e2".toList⟩).mpr (by decide)

/-- C3: on a listing with no matching entry the resolver does NOT fail
with a Not-Found (404) error: the error branch evaluates `data['tree']`
on the parsed JSON list, so the lookup fails with a `TypeError` and the
intended 404 message (target path and entry count) is never built. -/
theorem extract_tree_entry_nomatch_typeerror :
    extract_tree_entry ("missing.ipynb".toList)
        [⟨"a.txt".toList, "e1".toList⟩] =
      Except.error (PyError.typeError listIndexMsg) := by
  rfl

theorem classify_go (user repo ref : List Char) (files : List TreeFile)
    (d n o : List DisplayEntry) :
    files.foldl (classifyStep user repo ref) (d, n, o) =
      (d ++ (files.filter fileIsDir).map (mkEntry user repo ref),
       n ++ (files.filter (fun f => !fileIsDir f && fileIsNotebook f)).map
          (mkEntry user repo ref),
       o ++ (files.filter (fun f => !fileIsDir f && !fileIsNotebook f)).map
          (mkEntry user repo ref)) := by
  induction files generalizing d n o with
  | nil => simp
  | cons f fs ih =>
      cases hd : fileIsDir f <;> cases hn : fileIsNotebook f <;>
        simp [classifyStep, hd, hn, ih, List.filter_cons, List.append_assoc]

/-- C1: the classifier produces exactly three groups; the first is the
directory entries in input order, the second the notebook entries in
input order, the third the remaining entries in input order; and their
concatenation (the rendered `entries` list) is a permutation of the
per-file entries of the whole input listing, so no entry is dropped or
duplicated, every directory entry precedes every notebook entry, and
every notebook entry precedes every other entry. -/
theorem classify_partition (user repo ref : List Char) (files : List TreeFile) :
    classify user repo ref files =
      ((files.filter fileIsDir).map (mkEntry user repo ref),
       (files.filter (fun f => !fileIsDir f && fileIsNotebook f)).map
          (mkEntry user repo ref),
       (files.filter (fun f => !fileIsDir f && !fileIsNotebook f)).map
          (mkEntry user repo ref))
    ∧ List.Perm (treeEntries user repo ref files)
        (files.map (mkEntry user repo ref)) := by
  have hc := classify_go user repo ref files [] [] []
  have hcl : classify user repo ref files =
      ((files.filter fileIsDir).map (mkEntry user repo ref),
       (files.filter (fun f => !fileIsDir f && fileIsNotebook f)).map
          (mkEntry user repo ref),
       (files.filter (fun f => !fileIsDir f && !fileIsNotebook f)).map
          (mkEntry user repo ref)) := by
    simpa [classify] using hc
  refine ⟨hcl, ?_⟩
  have hB : files.filter (fun f => !fileIsDir f && fileIsNotebook f)
      = List.filter fileIsNotebook (files.filter (fun f => !fileIsDir f)) := by
    rw [List.filter_filter]
    exact List.filter_congr (fun a _ => Bool.and_comm _ _)
  have hC : files.filter (fun f => !fileIsDir f && !fileIsNotebook f)
      = List.filter (fun x => !fileIsNotebook x)
          (files.filter (fun f => !fileIsDir f)) := by
    rw [List.filter_filter]
    exact List.filter_congr (fun a _ => Bool.and_comm _ _)
  have h2 : List.Perm
      (files.filter (fun f => !fileIsDir f && fileIsNotebook f)
        ++ files.filter (fun f => !fileIsDir f && !fileIsNotebook f))
      (files.filter (fun f => !fileIsDir f)) := by
    rw [hB, hC]
    exact List.filter_append_perm fileIsNotebook
      (files.filter (fun f => !fileIsDir f))
  have hperm : List.Perm
      (files.filter fileIsDir
        ++ (files.filter (fun f => !fileIsDir f && fileIsNotebook f)
          ++ files.filter (fun f => !fileIsDir f && !fileIsNotebook f)))
      files :=
    (List.Perm.append_left _ h2).trans (List.filter_append_perm fileIsDir files)
  have ht : treeEntries user repo ref files =
      ((files.filter fileIsDir
        ++ (files.filter (fun f => !fileIsDir f && fileIsNotebook f)
          ++ files.filter (fun f => !fileIsDir f && !fileIsNotebook f))).map
        (mkEntry user repo ref)) := by
    simp [treeEntries, hcl, List.append_assoc]
  rw [ht]
  exact hperm.map (mkEntry user repo ref)

/-- C7: evaluated on a concrete listing holding a directory, a notebook,
a plain file with an upstream display URL, and a submodule without one,
the classifier emits the upstream link and empty-URL placeholder and the
four icon classes as specified, but the directory and notebook
navigation URLs start with `/github/`, not with this service's
`/gitlab/` routes. -/
theorem treeEntries_github_urls :
    treeEntries ("u".toList) ("r".toList) ("master".toList)
        [⟨"sub".toList, "sub".toList, "dir".toList, none⟩,
         ⟨"nb.ipynb".toList, "nb.ipynb".toList, "file".toList,
           some ("http://x/nb".toList)⟩,
         ⟨"a.txt".toList, "a.txt".toList, "file".toList,
           some ("http://x/a.txt".toList)⟩,
         ⟨"sm".toList, "sm".toList, "file".toList, none⟩] =
      [⟨"sub".toList, "/github/u/r/tree/master/sub".toList,
         "fa-folder-open".toList⟩,
       ⟨"nb.ipynb".toList, "/github/u/r/blob/master/nb.ipynb".toList,
         "fa-book".toList⟩,
       ⟨"a.txt".toList, "http://x/a.txt".toList, "fa-share".toList⟩,
       ⟨"sm".toList, [], "fa-folder-close".toList⟩] := by
  rfl

/-- C6: on a concrete tree request whose fetched contents are not a list,
the handler terminates with a redirect carrying the same user, repo, ref
and path and renders no tree view — but the redirect goes to
`/github/<user>/<repo>/blob/<ref>/<path>`, the GitHub provider's route,
not to this service's `/gitlab/<user>/<repo>/blob/<ref>/<path>` blob
route. -/
theorem treeHandler_nonlist_redirect :
    treeHandlerGet [] ("/gitlab/u/r/tree/master/x.txt/".toList)
        ("u".toList) ("r".toList) ("master".toList) ("x.txt".toList)
        JsonContents.nonList =
      TreeOutcome.redirect ("/github/u/r/blob/master/x.txt".toList) := by
  rfl

theorem dropPrefixL_append (p s : List Char) : dropPrefixL p (p ++ s) = some s := by
  induction p with
  | nil => rfl
  | cons a p' ih => simp [dropPrefixL, ih]

theorem takeWhile_noSlash (seg t : List Char) (hns : '/' ∉ seg) :
    (seg ++ '/' :: t).takeWhile (fun c => !(c == '/')) = seg := by
  induction seg with
  | nil => simp [List.takeWhile_cons]
  | cons a as ih =>
      have hb : (a == '/') = false := by
        have ha : a ≠ '/' := fun h => hns (by simp [h])
        simpa using ha
      have has : '/' ∉ as := fun h => hns (by simp [h])
      simp [List.takeWhile_cons, hb, ih has]

theorem dropWhile_noSlash (seg t : List Char) (hns : '/' ∉ seg) :
    (seg ++ '/' :: t).dropWhile (fun c => !(c == '/')) = '/' :: t := by
  induction seg with
  | nil => simp [List.dropWhile_cons]
  | cons a as ih =>
      have hb : (a == '/') = false := by
        have ha : a ≠ '/' := fun h => hns (by simp [h])
        simpa using ha
      have has : '/' ∉ as := fun h => hns (by simp [h])
      simp [List.dropWhile_cons, hb, ih has]

theorem splitSeg_append (seg t : List Char) (hne : seg ≠ [])
    (hns : '/' ∉ seg) : splitSeg (seg ++ '/' :: t) = some (seg, t) := by
  simp [splitSeg, takeWhile_noSlash seg t hns, dropWhile_noSlash seg t hns, hne]

/-- C4 (amended): for every base, every nonempty slash-free user and
repo segment, and every tail `rest` containing no newline, the rewrite
rule maps `<base>/<user>/<repo>/blob/<rest>` to
`/gitlab/<user>/<repo>/blob/<rest>` and `<base>/<user>/<repo>/tree/<rest>`
to `/gitlab/<user>/<repo>/tree/<rest>`, preserving `rest` byte-for-byte
(spaces and non-ASCII characters included). -/
theorem uriRewrite_blob_tree (base user repo rest : List Char)
    (hu1 : user ≠ []) (hu2 : '/' ∉ user) (hr1 : repo ≠ []) (hr2 : '/' ∉ repo)
    (hrest : '\n' ∉ rest) :
    uriRewrite base (base ++ '/' :: (user ++ '/' :: (repo ++ ("/blob/".toList ++ rest))))
        = some ("/gitlab/".toList ++ user ++ '/' :: (repo ++ ("/blob/".toList ++ rest)))
    ∧ uriRewrite base (base ++ '/' :: (user ++ '/' :: (repo ++ ("/tree/".toList ++ rest))))
        = some ("/gitlab/".toList ++ user ++ '/' :: (repo ++ ("/tree/".toList ++ rest))) := by
  have e5 : matchTail rest = some rest := by simp [matchTail, hrest]
  constructor
  · have e1 : dropPrefixL (base ++ ['/'])
        (base ++ '/' :: (user ++ '/' :: (repo ++ ("/blob/".toList ++ rest))))
        = some (user ++ '/' :: (repo ++ ("/blob/".toList ++ rest))) := by
      have h : base ++ '/' :: (user ++ '/' :: (repo ++ ("/blob/".toList ++ rest)))
          = (base ++ ['/']) ++ (user ++ '/' :: (repo ++ ("/blob/".toList ++ rest))) := by
        simp
      rw [h, dropPrefixL_append]
    have e2 := splitSeg_append user (repo ++ ("/blob/".toList ++ rest)) hu1 hu2
    have e3 : splitSeg (repo ++ ("/blob/".toList ++ rest))
        = some (repo, "blob/".toList ++ rest) := by
      have h : repo ++ ("/blob/".toList ++ rest)
          = repo ++ '/' :: ("blob/".toList ++ rest) := rfl
      rw [h]
      exact splitSeg_append repo _ hr1 hr2
    have e4 : matchKind ("blob/".toList ++ rest) = some ("blob".toList, rest) := by
      unfold matchKind
      rw [dropPrefixL_append]
    simp only [uriRewrite, e1, e2, e3, e4, e5]
    congr 1
    have hb : "/blob/".toList ++ rest = '/' :: ("blob".toList ++ ('/' :: rest)) := rfl
    simp [hb, List.append_assoc]
  · have e1 : dropPrefixL (base ++ ['/'])
        (base ++ '/' :: (user ++ '/' :: (repo ++ ("/tree/".toList ++ rest))))
        = some (user ++ '/' :: (repo ++ ("/tree/".toList ++ rest))) := by
      have h : base ++ '/' :: (user ++ '/' :: (repo ++ ("/tree/".toList ++ rest)))
          = (base ++ ['/']) ++ (user ++ '/' :: (repo ++ ("/tree/".toList ++ rest))) := by
        simp
      rw [h, dropPrefixL_append]
    have e2 := splitSeg_append user (repo ++ ("/tree/".toList ++ rest)) hu1 hu2
    have e3 : splitSeg (repo ++ ("/tree/".toList ++ rest))
        = some (repo, "tree/".toList ++ rest) := by
      have h : repo ++ ("/tree/".toList ++ rest)
          = repo ++ '/' :: ("tree/".toList ++ rest) := rfl
      rw [h]
      exact splitSeg_append repo _ hr1 hr2
    have hbt : dropPrefixL ("blob/".toList) ("tree/".toList ++ rest) = none := rfl
    have e4 : matchKind ("tree/".toList ++ rest) = some ("tree".toList, rest) := by
      unfold matchKind
      rw [hbt, dropPrefixL_append]
    simp only [uriRewrite, e1, e2, e3, e4, e5]
    congr 1
    have ht : "/tree/".toList ++ rest = '/' :: ("tree".toList ++ ('/' :: rest)) := rfl
    simp [ht, List.append_assoc]

/-- C4 counterexample: the unrestricted claim fails on the code.  A tail
containing an interior newline matches no rule (Python `.` does not
match a newline), a user segment containing `/` is parsed as different
segments and matches no rule, and an empty user segment matches no rule
(`[^\/]+` needs at least one character). -/
theorem uriRewrite_blob_counterexample :
    uriRewrite ("https://gitlab.com".toList)
        ("https://gitlab.com/user/repo/blob/a\nb.ipynb".toList) = none
    ∧ uriRewrite ("https://gitlab.com".toList)
        ("https://gitlab.com/a/b/repo/blob/x.ipynb".toList)
        ≠ some ("/gitlab/a/b/repo/blob/x.ipynb".toList)
    ∧ uriRewrite ("https://gitlab.com".toList)
        ("https://gitlab.com//repo/blob/x.ipynb".toList) = none := by
  refine ⟨rfl, ?_, rfl⟩
  intro h
  exact Option.noConfusion (h.symm.trans (rfl : uriRewrite ("https://gitlab.com".toList)
    ("https://gitlab.com/a/b/repo/blob/x.ipynb".toList) = none))

/-- C4 witness: the amended rewrite theorem applied to the repository
test's own example, with an ASCII space in the tail. -/
theorem uriRewrite_blob_tree_witness :
    uriRewrite ("https://gitlab.com".toList)
        ("https://gitlab.com".toList ++ '/' :: ("user".toList
          ++ '/' :: ("reopname".toList ++ ("/blob/".toList ++ "a b.ipynb".toList))))
        = some ("/gitlab/".toList ++ "user".toList
          ++ '/' :: ("reopname".toList ++ ("/blob/".toList ++ "a b.ipynb".toList)))
    ∧ uriRewrite ("https://gitlab.com".toList)
        ("https://gitlab.com".toList ++ '/' :: ("user".toList
          ++ '/' :: ("reopname".toList ++ ("/tree/".toList ++ "a b.ipynb".toList))))
        = some ("/gitlab/".toList ++ "user".toList
          ++ '/' :: ("reopname".toList ++ ("/tree/".toList ++ "a b.ipynb".toList))) :=
  uriRewrite_blob_tree ("https://gitlab.com".toList) ("user".toList)
    ("reopname".toList) ("a b.ipynb".toList)
    (by decide) (by decide) (by decide) (by decide) (by decide)

/-- C5: a `raw` upstream URL does NOT rewrite to the internal blob
route: the installed pattern alternates only over `blob` and `tree`, so
the repository test's own input
`https://gitlab.com/user/reopname/raw/deadbeef/a b.ipynb` matches no
rewrite rule and is left untransformed instead of mapping to
`/gitlab/user/reopname/blob/deadbeef/a b.ipynb`. -/
theorem uriRewrite_raw_unmatched :
    uriRewrite ("https://gitlab.com".toList)
        ("https://gitlab.com/user/reopname/raw/deadbeef/a b.ipynb".toList) = none := by
  rfl

/-- C8: the client rejects any URL not under the configured API base
before any send happens (the credential is then never attached), and
when a token is configured, every request that is sent carries the token
under `private_token` in its final query parameters. -/
theorem fetch_guard_and_token (c : GLClient) (url : List Char) (params : Dict)
    (token : List Char) (hauth : c.auth = mkAuth token) :
    (c.gitlab_api_url.isPrefixOf url = false →
      fetch c url params = FetchResult.valueError fetchErrMsg)
    ∧ (token ≠ [] → ∀ u ps, fetch c url params = FetchResult.sent u ps →
        lookupKey ps privateTokenKey = some token) := by
  constructor
  · intro h
    simp [fetch, h]
  · intro htok u ps hsent
    have hal : c.auth = [(privateTokenKey, token)] := by
      rw [hauth]; exact mkAuth_eq token htok
    cases hpre : c.gitlab_api_url.isPrefixOf url with
    | false => simp [fetch, hpre] at hsent
    | true =>
        have hps : ps = fetchParams c params := by
          simp [fetch, hpre] at hsent
          exact hsent.2.symm
        rw [hps, fetchParams, hal]
        simp only [List.isEmpty_cons, Bool.false_eq_true, if_false, dictUpdate,
          List.foldl_cons, List.foldl_nil]
        exact lookupKey_setKey_self params privateTokenKey token

/-- C8 witness: with a concrete client, a URL outside the API base is
rejected with the `ValueError`, and the token appears in the parameters
of a sent request, both via `fetch_guard_and_token`. -/
theorem fetch_guard_and_token_witness :
    fetch exClient ("https://evil.example/api/v3/projects".toList) []
        = FetchResult.valueError fetchErrMsg
    ∧ lookupKey [(privateTokenKey, "sekrit".toList)] privateTokenKey
        = some ("sekrit".toList) := by
  constructor
  · exact (fetch_guard_and_token exClient
      ("https://evil.example/api/v3/projects".toList) [] ("sekrit".toList) rfl).1
      (by decide)
  · exact (fetch_guard_and_token exClient
      ("https://gitlab.example/api/v3/projects".toList) [] ("sekrit".toList) rfl).2
      (by decide) ("https://gitlab.example/api/v3/projects".toList)
      [(privateTokenKey, "sekrit".toList)] (by decide)

/-- C10: for every user and caller-supplied parameter mapping (and any
configured token), the outgoing project-listing request carries
`sudo = user`: `get_projects` assigns the `sudo` key after merging the
caller's parameters, overriding any caller-passed `sudo` value, and the
credential merge in `fetch` does not disturb it. -/
theorem get_projects_sudo (c : GLClient) (user : List Char) (callerParams : Dict)
    (token : List Char) (hauth : c.auth = mkAuth token) :
    lookupKey (get_projects_sent_params c user callerParams) sudoKey
      = some user := by
  unfold get_projects_sent_params get_projects_params fetchParams
  by_cases htok : token = []
  · subst htok
    rw [hauth, mkAuth_eq_nil]
    simp only [List.isEmpty_nil, if_true]
    exact lookupKey_setKey_self callerParams sudoKey user
  · rw [hauth, mkAuth_eq token htok]
    simp only [List.isEmpty_cons, Bool.false_eq_true, if_false, dictUpdate,
      List.foldl_cons, List.foldl_nil]
    rw [lookupKey_setKey_other _ _ _ _ (by decide)]
    exact lookupKey_setKey_self callerParams sudoKey user

/-- C10 witness: even when the caller passes `sudo = mallory`, the sent
request carries `sudo = alice`, via `get_projects_sudo`. -/
theorem get_projects_sudo_witness :
    lookupKey (get_projects_sent_params exClient ("alice".toList)
        [(sudoKey, "mallory".toList)]) sudoKey = some ("alice".toList) :=
  get_projects_sudo exClient ("alice".toList) [(sudoKey, "mallory".toList)]
    ("sekrit".toList) rfl

/-- C9: the tree-entry lookup never issues a tree request at all.  On
the concrete nested path `a/b.ipynb` (and any other input) the call
fails with Python's missing-positional-argument `TypeError`, because
`get_tree_entry` invokes `get_tree` without its required positional
`path` argument; the `recursive` keyword is indeed prepared exactly when
the path contains a separator, but it never reaches an outgoing
request. -/
theorem get_tree_entry_missing_path :
    get_tree_entry_call ("u".toList) ("r".toList) ("a/b.ipynb".toList)
        ("master".toList) = CallOutcome.pyError missingPathMsg
    ∧ treeEntryKwargs ("a/b.ipynb".toList)
        = [("recursive".toList, "True".toList)]
    ∧ treeEntryKwargs ("top.ipynb".toList) = [] := by
  refine ⟨rfl, by decide, by decide⟩
